import Mathlib

/-!
Verification development for the `search` repository (`src/indexes.py`):
a declarative document-schema layer over a hosted full-text search service.

The embedding models Python dictionaries as association lists with unique
keys (`Dict`), Python runtime values as the inductive `Value`, field
descriptors (`fields.Field` subclasses) as records of their two conversion
functions, and the remote search API as an abstract collaborator
(`Remote` / response functions passed as parameters).
-/

set_option autoImplicit false

namespace Search

universe u v

/-- A Python runtime value, restricted to the shapes the mapping layer
actually moves around: strings, integers, booleans and `None`. -/
inductive Value where
  | str (s : String)
  | int (n : Int)
  | bool (b : Bool)
  | null
deriving DecidableEq, Repr

/-- Python's `unicode(x)` conversion on the modelled values (the UTF-8
`encode` step is the identity on content in this model: strings stand for
their byte encodings). -/
def pyUnicode : Value → String
  | Value.str s => s
  | Value.int n => toString n
  | Value.bool b => if b then "True" else "False"
  | Value.null => "None"

/-- A Python `dict` with `String` keys, modelled as an association list.
All dictionaries built by the source have unique keys. -/
abbrev Dict (α : Type u) : Type u := List (String × α)

namespace Dict

/-- Lookup, i.e. Python `d[k]` / `d.get(k)` returning `none` for a
missing key. -/
def get? {α : Type u} : Dict α → String → Option α
  | [], _ => none
  | p :: rest, k => if p.1 = k then some p.2 else get? rest k

/-- Python `d[k] = v`: replace the value at the first occurrence of the
key, or append the binding when the key is absent. -/
def insert {α : Type u} : Dict α → String → α → Dict α
  | [], k, v => [(k, v)]
  | p :: rest, k, v => if p.1 = k then (k, v) :: rest else p :: insert rest k v

/-- The effect of Python `d.pop(k, ...)` on the dictionary: remove the key. -/
def erase {α : Type u} : Dict α → String → Dict α
  | [], _ => []
  | p :: rest, k => if p.1 = k then erase rest k else p :: erase rest k

/-- Python `d1.update(d2)`: fold `d2`'s bindings into `d1`, later
bindings overriding earlier ones. -/
def update {α : Type u} (d l : Dict α) : Dict α :=
  l.foldl (fun acc kv => insert acc kv.1 kv.2) d

/-- The key list of a dictionary. -/
def keys {α : Type u} (d : Dict α) : List String :=
  d.map Prod.fst

theorem get?_insert_self {α : Type u} (d : Dict α) (k : String) (v : α) :
    get? (insert d k v) k = some v := by
  induction d with
  | nil => simp [insert, get?]
  | cons p rest ih =>
    by_cases h : p.1 = k
    · simp [insert, h, get?]
    · simp [insert, h, get?, ih]

theorem get?_insert_ne {α : Type u} (d : Dict α) (k k' : String) (v : α)
    (h : k' ≠ k) : get? (insert d k v) k' = get? d k' := by
  induction d with
  | nil =>
    simp only [insert, get?]
    rw [if_neg (Ne.symm h)]
  | cons p rest ih =>
    by_cases hp : p.1 = k
    · have hpk' : p.1 ≠ k' := fun hh => h (hp.symm.trans hh).symm
      simp only [insert, if_pos hp, get?]
      rw [if_neg (Ne.symm h), if_neg hpk']
    · by_cases hp' : p.1 = k'
      · simp only [insert, if_neg hp, get?, if_pos hp']
      · simp only [insert, if_neg hp, get?, if_neg hp', ih]

theorem get?_erase_ne {α : Type u} (d : Dict α) (k k' : String)
    (h : k' ≠ k) : get? (erase d k) k' = get? d k' := by
  induction d with
  | nil => simp [erase]
  | cons p rest ih =>
    by_cases hp : p.1 = k
    · have hpk' : p.1 ≠ k' := fun hh => h (hp.symm.trans hh).symm
      simp only [erase, if_pos hp, get?, if_neg hpk', ih]
    · by_cases hp' : p.1 = k'
      · simp only [erase, if_neg hp, get?, if_pos hp']
      · simp only [erase, if_neg hp, get?, if_neg hp', ih]

theorem get?_eq_some_mem {α : Type u} (d : Dict α) (k : String) (v : α)
    (h : get? d k = some v) : (k, v) ∈ d := by
  induction d with
  | nil => simp [get?] at h
  | cons p rest ih =>
    by_cases hp : p.1 = k
    · subst hp
      rw [get?, if_pos rfl] at h
      injection h with hv
      subst hv
      exact List.mem_cons_self _ _
    · rw [get?, if_neg hp] at h
      exact List.mem_cons_of_mem _ (ih h)

theorem get?_eq_none_iff {α : Type u} (d : Dict α) (k : String) :
    get? d k = none ↔ k ∉ keys d := by
  induction d with
  | nil => simp [get?, keys]
  | cons p rest ih =>
    by_cases hp : p.1 = k
    · simp [get?, keys, hp]
    · have h1 : ¬k = p.1 := fun hh => hp hh.symm
      simp [get?, if_neg hp, keys, h1, ih]

theorem get?_of_mem_nodup {α : Type u} (d : Dict α) (k : String) (v : α)
    (hnd : (keys d).Nodup) (hm : (k, v) ∈ d) : get? d k = some v := by
  induction d with
  | nil => simp at hm
  | cons p rest ih =>
    rw [keys, List.map_cons, List.nodup_cons] at hnd
    rcases List.mem_cons.mp hm with h | h
    · rw [← h]
      simp [get?]
    · have hp : p.1 ≠ k := by
        intro hpk
        apply hnd.1
        rw [hpk]
        exact List.mem_map_of_mem Prod.fst h
      rw [get?, if_neg hp]
      exact ih hnd.2 h

theorem get?_insert_isSome {α : Type u} (d : Dict α) (k k' : String) (v : α)
    (h : (get? d k).isSome = true) : (get? (insert d k' v) k).isSome = true := by
  by_cases hk : k = k'
  · subst hk
    simp [get?_insert_self]
  · rwa [get?_insert_ne d k' k v hk]

theorem get?_update_not_mem {α : Type u} (d l : Dict α) (k : String)
    (h : k ∉ keys l) : get? (update d l) k = get? d k := by
  induction l generalizing d with
  | nil => rfl
  | cons kv rest ih =>
    rw [keys, List.map_cons, List.mem_cons] at h
    push_neg at h
    show get? (update (insert d kv.1 kv.2) rest) k = get? d k
    rw [ih (insert d kv.1 kv.2) h.2, get?_insert_ne d kv.1 k kv.2 h.1]

theorem get?_update_mem {α : Type u} (d l : Dict α) (k : String) (v : α)
    (hnd : (keys l).Nodup) (hm : (k, v) ∈ l) : get? (update d l) k = some v := by
  induction l generalizing d with
  | nil => simp at hm
  | cons kv rest ih =>
    obtain ⟨a, b⟩ := kv
    rw [keys, List.map_cons, List.nodup_cons] at hnd
    rcases List.mem_cons.mp hm with h | h
    · injection h with hk hv
      subst hk
      subst hv
      show get? (update (insert d k v) rest) k = some v
      rw [get?_update_not_mem (insert d k v) rest k hnd.1, get?_insert_self]
    · show get? (update (insert d a b) rest) k = some v
      exact ih (insert d a b) hnd.2 h

theorem get?_update_isSome {α : Type u} (d l : Dict α) (k : String)
    (h : (get? d k).isSome = true) : (get? (update d l) k).isSome = true := by
  induction l generalizing d with
  | nil => exact h
  | cons kv rest ih =>
    exact ih (insert d kv.1 kv.2) (get?_insert_isSome d k kv.1 kv.2 h)

theorem get?_update_isSome_of_mem {α : Type u} (d l : Dict α) (k : String)
    (h : k ∈ keys l) : (get? (update d l) k).isSome = true := by
  induction l generalizing d with
  | nil => simp [keys] at h
  | cons kv rest ih =>
    show (get? (update (insert d kv.1 kv.2) rest) k).isSome = true
    by_cases hr : k ∈ keys rest
    · exact ih (insert d kv.1 kv.2) hr
    · rw [get?_update_not_mem _ _ _ hr]
      rw [keys, List.map_cons, List.mem_cons] at h
      rcases h with h | h
      · subst h
        rw [get?_insert_self]
        rfl
      · exact absurd h hr

theorem get?_update_eq {α : Type u} (d l : Dict α) (k : String)
    (hnd : (keys l).Nodup) :
    get? (update d l) k = (get? l k).orElse (fun _ => get? d k) := by
  cases h : get? l k with
  | none =>
    rw [get?_update_not_mem d l k ((get?_eq_none_iff l k).mp h)]
    rfl
  | some v =>
    rw [get?_update_mem d l k v hnd (get?_eq_some_mem l k v h)]
    rfl

end Dict

/-- The concrete `fields.Field` subclass a field descriptor belongs to
(`TextField`, `IntegerField`, `FloatField`, `DateField`, `BooleanField`),
used as the key of `Index.FIELD_MAP`. -/
inductive FieldClass where
  | text
  | integer
  | float
  | date
  | boolean
deriving DecidableEq, Repr

/-- A field descriptor (`fields.Field`): its class together with its two
conversion functions `to_python` (wire value → app value) and
`to_search_value` (app value → wire value). `fields.py` is not under
`src/`, so the conversions are kept abstract; the schema machinery in
`src/indexes.py` only ever calls them as black boxes. -/
structure Field where
  cls : FieldClass
  to_python : Value → Value
  to_search_value : Value → Value

/-- Modelled from the spec: `fields.BooleanField` lives in `fields.py`,
which is not under `src/`. Per spec §4.1, boolean field values are
"encoded as an atomic tag value (since the remote service lacks a native
boolean type) and decoded back to a boolean". -/
def BooleanField : Field where
  cls := FieldClass.boolean
  to_search_value := fun v =>
    match v with
    | Value.bool b => Value.str (if b then "true" else "false")
    | other => other
  to_python := fun v =>
    match v with
    | Value.str s =>
      if s = "true" then Value.bool true
      else if s = "false" then Value.bool false
      else Value.str s
    | other => other

/-- Modelled from the spec: `fields.TextField` lives in `fields.py`, which
is not under `src/`. Per spec §4.1, "text fields pass through as strings
with no transformation". Used only to build concrete example schemas. -/
def TextFieldModel : Field where
  cls := FieldClass.text
  to_python := fun v => v
  to_search_value := fun v => v

/-- A document schema: the `_meta.fields` dictionary, mapping a field
name to its `Field` descriptor. -/
abbrev Schema : Type := Dict Field

/-- Schema assembly of `MetaClass.__new__` (src/indexes.py:24-70), restricted to the schema
it assembles: start from an empty dict, `update` it with each parent's
`_meta.fields` after reversing the base list ("Reversing simulates the
usual MRO"), then bind every `Field`-valued attribute of the class body
`dct` on top (`fields[name] = field`). The `add_to_class`/`delattr`
bookkeeping does not affect the resulting mapping. -/
def MetaClass.new (parentSchemas : List Schema) (dct : Schema) : Schema :=
  let fields := (parentSchemas.reverse).foldl Dict.update []
  Dict.update fields dct

/-- A `DocumentModel` instance: its class's schema together with its
`__dict__` of stored attribute values. -/
structure PyDoc where
  schema : Schema
  attrs : Dict Value

namespace DocumentModel

/-- Model of `DocumentModel.__setattr__` (src/indexes.py:103-110): if the name is a
schema field, store `to_search_value` of the assigned value, otherwise
store the value unmodified. -/
def setattr (schema : Schema) (attrs : Dict Value) (name : String) (val : Value) :
    Dict Value :=
  match Dict.get? schema name with
  | some f => Dict.insert attrs name (f.to_search_value val)
  | none => Dict.insert attrs name val

/-- Model of `DocumentModel.__getattribute__` (src/indexes.py:87-101): read the
stored value (`none` models `AttributeError`); if the name is a schema
field, return `to_python` of it, otherwise return it unmodified. -/
def getattribute (schema : Schema) (attrs : Dict Value) (name : String) :
    Option Value :=
  match Dict.get? attrs name with
  | none => none
  | some v =>
    match Dict.get? schema name with
    | some f => some (f.to_python v)
    | none => some v

/-- Python `getattr(d, name, None)`: attribute access with a `None`
default swallowing the `AttributeError`. -/
def getattrD (d : PyDoc) (name : String) : Value :=
  match getattribute d.schema d.attrs name with
  | some v => v
  | none => Value.null

/-- The field-initialisation loop of `DocumentModel.__init__`
(src/indexes.py:81-83): for each schema field pop its keyword (default
`None`) and assign it through `__setattr__`. Returns the built attribute
dict together with the remaining keyword dict. -/
def initFields (schema : Schema) :
    List (String × Field) → Dict Value → Dict Value → Dict Value × Dict Value
  | [], attrs, kw => (attrs, kw)
  | nf :: rest, attrs, kw =>
    initFields schema rest
      (setattr schema attrs nf.1 ((Dict.get? kw nf.1).getD Value.null))
      (Dict.erase kw nf.1)

/-- Model of `DocumentModel.__init__` (src/indexes.py:78-85): assign every schema
field from the keyword arguments, then set
`self.doc_id = unicode(kwargs.get('doc_id', '')).encode('utf-8') or None`. -/
def init (schema : Schema) (kwargs : Dict Value) : PyDoc :=
  let p := initFields schema schema [] kwargs
  let rawId := (Dict.get? p.2 "doc_id").getD (Value.str "")
  let s := pyUnicode rawId
  let did := if s = "" then Value.null else Value.str s
  ⟨schema, setattr schema p.1 "doc_id" did⟩

end DocumentModel

/-- Model of `RangeDocument` (src/indexes.py:17-20): its `__init__` copies the
keyword arguments straight into the instance `__dict__`. -/
structure RangeDocument where
  dict : Dict Value
deriving DecidableEq, Repr

/-- Attribute read `r.doc_id` on a `RangeDocument` (every instance built
by `Index.get_range` has exactly this one attribute). -/
def RangeDocument.doc_id (r : RangeDocument) : Value :=
  (Dict.get? r.dict "doc_id").getD Value.null

/-- The wire field class used by the search API
(`search_api.TextField` / `NumberField` / `DateField` / `AtomField`). -/
inductive WireType where
  | text
  | number
  | date
  | atom
deriving DecidableEq, Repr

/-- A wire field of a `search_api.Document`: constructor, name, value. -/
structure WireField where
  ftype : WireType
  name : String
  value : Value
deriving DecidableEq, Repr

/-- A `search_api.Document`: a document in the remote index's wire
format. -/
structure WireDoc where
  doc_id : Value
  fields : List WireField
deriving DecidableEq, Repr

/-- The cursor value passed as the `start_id` keyword of a range query:
either a plain value (a document id string) or a `RangeDocument`
instance. -/
inductive CursorVal where
  | value (v : Value)
  | rangeDoc (r : RangeDocument)
deriving DecidableEq, Repr

/-- The keyword arguments of `Index.get_range` that the source reads or
sets (`ids_only`, and the paging cursor forwarded to the remote
`get_range`). `ids_only := false` models both an absent and a falsy
keyword, matching `kwargs.get("ids_only")`. -/
structure GRKwargs where
  ids_only : Bool := false
  start_id : Option CursorVal := none
  include_start_object : Option Bool := none
deriving DecidableEq, Repr

/-- Modelled from the spec: `query.construct_document` lives in
`query.py`, which is not under `src/`. Per spec §4.4, "each wire document
is decoded into an instance of `document_class` by writing its fields onto
a fresh instance's schema-governed attributes"; with no document class
(`None`), attribute access on `None` fails, modelled as an error. -/
def construct_document (document_class : Option Schema) (w : WireDoc) :
    Except String PyDoc :=
  match document_class with
  | none => Except.error "AttributeError: NoneType object has no attribute _meta"
  | some schema =>
    Except.ok
      (w.fields.foldl
        (fun d wf => ⟨schema, DocumentModel.setattr schema d.attrs wf.name wf.value⟩)
        (DocumentModel.init schema [("doc_id", w.doc_id)]))

/-- An element of the list returned by `Index.get_range`: either an
id-only `RangeDocument` projection or a decoded document instance. -/
inductive RangeResult where
  | range (r : RangeDocument)
  | doc (d : PyDoc)

/-- The state an `Index.__init__` call leaves behind: the stored `name`
(the remote `search_api.Index` handle is opaque). -/
structure Index where
  name : String

namespace Index

/-- Model of `Index.__init__` (src/indexes.py:126-132): `assert name` (fails for
`None` and for the empty string), then assert that the name does not
start with `'!'` and contains no space; on success store the name. -/
def init (name : Option String) : Except String Index :=
  match name with
  | none => Except.error "An index must have a non empty name"
  | some n =>
    if n = "" then Except.error "An index must have a non empty name"
    else if n.data.head? = some '!' ∨ ' ' ∈ n.data then
      Except.error "An index name must not start with a bang and must not contain spaces"
    else Except.ok ⟨n⟩

/-- Model of `Index.FIELD_MAP` (src/indexes.py:118-124): which search API field
constructor each `fields.Field` subclass maps to. -/
def FIELD_MAP : FieldClass → WireType
  | FieldClass.text => WireType.text
  | FieldClass.integer => WireType.number
  | FieldClass.float => WireType.number
  | FieldClass.date => WireType.date
  | FieldClass.boolean => WireType.atom

/-- Model of `Index.get_range` (src/indexes.py:143-156). `remote` stands for the
underlying `self._index.get_range(**kwargs)` call. Note the source's
guard raises when `document_class` IS supplied and `ids_only` is falsy:
`if not ids_only and document_class: raise ValueError(...)`. -/
def get_range (remote : GRKwargs → List WireDoc) (document_class : Option Schema)
    (kwargs : GRKwargs) : Except String (List RangeResult) :=
  if !kwargs.ids_only && document_class.isSome then
    Except.error
      "If ids_only is False, you must pass a document_class to instantiate with the results"
  else
    let docs := remote kwargs
    if kwargs.ids_only then
      Except.ok (docs.map (fun d => RangeResult.range ⟨[("doc_id", d.doc_id)]⟩))
    else
      (docs.mapM (construct_document document_class)).map (List.map RangeResult.doc)

/-- Model of `Index.list_documents` (src/indexes.py:134-136): deprecated alias,
`return self.get_range(**kwargs)`. -/
def list_documents (remote : GRKwargs → List WireDoc) (document_class : Option Schema)
    (kwargs : GRKwargs) : Except String (List RangeResult) :=
  get_range remote document_class kwargs

/-- The `documents` argument of `Index.put`: either a single
`DocumentModel` instance (on which `len()` raises `TypeError`) or a
sequence of them. -/
inductive PutArg where
  | single (d : PyDoc)
  | batch (ds : List PyDoc)

/-- The inner `get_fields` helper of `Index.put` (src/indexes.py:161-167):
one search API field per `_meta.fields` entry, with the field's
`to_search_value` applied to `getattr(d, n, None)` — the observed
(app-level) attribute value. -/
def get_fields (d : PyDoc) : List WireField :=
  d.schema.map
    (fun nf =>
      ⟨FIELD_MAP nf.2.cls, nf.1, nf.2.to_search_value (DocumentModel.getattrD d nf.1)⟩)

/-- Model of `Index.put` (src/indexes.py:158-182). `remotePut` stands for the
single `self._index.put(search_docs)` call; its result is returned. -/
def put {ρ : Type v} (remotePut : List WireDoc → ρ) (documents : PutArg) : ρ :=
  let ds :=
    match documents with
    | PutArg.single d => [d]
    | PutArg.batch l => l
  remotePut (ds.map (fun d => ⟨DocumentModel.getattrD d "doc_id", get_fields d⟩))

/-- Model of `Index.add` (src/indexes.py:138-141): deprecated alias,
`return self.put(documents)`. -/
def add {ρ : Type v} (remotePut : List WireDoc → ρ) (documents : PutArg) : ρ :=
  put remotePut documents

/-- Model of `Index.delete` (src/indexes.py:189-191): straight proxy to the
underlying index's delete. -/
def delete {ρ : Type v} (remoteDelete : List Value → ρ) (doc_ids : List Value) : ρ :=
  remoteDelete doc_ids

/-- Model of `Index.remove` (src/indexes.py:184-187): deprecated alias,
`return self.delete(doc_ids)`. -/
def remove {ρ : Type v} (remoteDelete : List Value → ρ) (doc_ids : List Value) : ρ :=
  delete remoteDelete doc_ids

end Index

/-- The remote search index as a stateful collaborator: `get_range`
answers a range query against the current index state, `delete` removes
the given ids and returns the new state. -/
structure Remote (σ : Type u) where
  get_range : σ → GRKwargs → List WireDoc
  delete : σ → List Value → σ

/-- The payload of `self.get_range(ids_only=True, ...)` as `purge` uses
it: the id-only `RangeDocument` projections (see
`purgeFetch_eq_get_range` for the bridge to `Index.get_range`). -/
def purgeFetch {σ : Type u} (R : Remote σ) (s : σ) (kw : GRKwargs) :
    List RangeDocument :=
  (R.get_range s kw).map (fun w => ⟨[("doc_id", w.doc_id)]⟩)

/-- One observable step of `Index.purge`: a range fetch (with the kwargs
it sent and the page it got back) or a batch delete (with the ids it
sent). -/
inductive PurgeEvent where
  | fetch (kwargs : GRKwargs) (result : List RangeDocument)
  | deleteIds (ids : List Value)
deriving DecidableEq, Repr

/-- The `while docs:` loop of `Index.purge` (src/indexes.py:200-206),
run on a page `docs` with `fuel` remaining iterations. Returns the
events of the executed iterations and whether the loop reached its exit
(an empty page) within the fuel. Note the re-query cursor the source
builds: `start_id=docs[-1]` — the last `RangeDocument` object itself. -/
def purgeLoop {σ : Type u} (R : Remote σ) :
    Nat → σ → List RangeDocument → List PurgeEvent × Bool
  | 0, _, docs => ([], docs.isEmpty)
  | _ + 1, _, [] => ([], true)
  | fuel + 1, s, d :: ds =>
    let ids := (d :: ds).map RangeDocument.doc_id
    let s1 := R.delete s ids
    let kw : GRKwargs :=
      { ids_only := true,
        start_id := some (CursorVal.rangeDoc ((d :: ds).getLast (List.cons_ne_nil d ds))),
        include_start_object := some false }
    let next := purgeFetch R s1 kw
    let p := purgeLoop R fuel s1 next
    (PurgeEvent.deleteIds ids :: PurgeEvent.fetch kw next :: p.1, p.2)

/-- Model of `Index.purge` (src/indexes.py:193-206): an initial
`get_range(ids_only=True)` fetch followed by the delete/re-fetch loop.
Returns the event trace and whether the loop exited (reached DONE)
within `fuel` iterations. -/
def Index.purge {σ : Type u} (R : Remote σ) (s0 : σ) (fuel : Nat) :
    List PurgeEvent × Bool :=
  let kw0 : GRKwargs := { ids_only := true }
  let docs0 := purgeFetch R s0 kw0
  let p := purgeLoop R fuel s0 docs0
  (PurgeEvent.fetch kw0 docs0 :: p.1, p.2)

/-- Faithfulness bridge: on an `ids_only` query, `Index.get_range` wraps
exactly the `purgeFetch` projections (so `purge`'s fetches are the
`self.get_range(ids_only=True, ...)` calls of the source). -/
theorem purgeFetch_eq_get_range {σ : Type u} (R : Remote σ) (s : σ)
    (dc : Option Schema) (kw : GRKwargs) (h : kw.ids_only = true) :
    Index.get_range (R.get_range s) dc kw =
      Except.ok ((purgeFetch R s kw).map RangeResult.range) := by
  unfold Index.get_range purgeFetch
  rw [h]
  simp

/-! ### Concrete collaborators used by witnesses and counterexample runs -/

/-- A remote index that is empty (every range query returns no
documents). -/
def emptyRemote : GRKwargs → List WireDoc := fun _ => []

/-- A one-field sample schema built from the spec-modelled text field. -/
def sampleSchema : Schema := [("title", TextFieldModel)]

/-- A concrete stateful remote index over a document list: range queries
with no cursor return the whole state, cursored queries return nothing,
and delete removes the listed ids. -/
def oneDocRemote : Remote (List WireDoc) where
  get_range := fun s kw => if kw.start_id = none then s else []
  delete := fun s ids => s.filter (fun w => decide (¬w.doc_id ∈ ids))

/-- A remote responding to every range query with two fixed documents. -/
def twoDocRemote : GRKwargs → List WireDoc := fun _ =>
  [⟨Value.str "a", []⟩, ⟨Value.str "b", [⟨WireType.text, "t", Value.str "x"⟩]⟩]

/-! ### Claim theorems -/

/-- C1 (code bug): `Index.get_range` with `ids_only` falsy raises the
configuration `ValueError` exactly when a `document_class` IS supplied
(`if not ids_only and document_class:`), and returns normally when
`document_class` is absent — the inverse of the documented behaviour and
of the guard's own error message. Evaluated at an empty remote index:
with a document class the call errors, with `document_class=None` it
returns an empty result list. -/
theorem get_range_document_class_guard_inverted :
    Index.get_range emptyRemote (some sampleSchema) {} =
      Except.error
        "If ids_only is False, you must pass a document_class to instantiate with the results"
    ∧ Index.get_range emptyRemote none {} = Except.ok [] :=
  ⟨rfl, rfl⟩

/-- C3: `Index` construction succeeds, storing the name, exactly for a
name that is non-empty, does not start with `'!'` and contains no space;
it fails for `None`, the empty name, a name with a space, or a name
starting with `'!'`. -/
theorem index_init_name_validation (n : String) :
    (¬(n = "" ∨ n.data.head? = some '!' ∨ ' ' ∈ n.data) →
      Index.init (some n) = Except.ok ⟨n⟩)
    ∧ ((n = "" ∨ n.data.head? = some '!' ∨ ' ' ∈ n.data) →
      ∀ s, Index.init (some n) ≠ Except.ok s)
    ∧ (∀ s, Index.init none ≠ Except.ok s) := by
  refine ⟨?_, ?_, ?_⟩
  · intro h
    push_neg at h
    simp [Index.init, h.1, h.2.1, h.2.2]
  · intro h s
    by_cases h0 : n = ""
    · simp [Index.init, h0]
    · rcases h with h | h | h
      · exact absurd h h0
      · simp [Index.init, h0, h]
      · simp [Index.init, h0, h]
  · intro s
    simp [Index.init]

/-- Witness for C3 at the spec's concrete names. -/
theorem index_init_name_validation_witness :
    Index.init (some "good-index") = Except.ok ⟨"good-index"⟩
    ∧ Index.init (some "") ≠ Except.ok ⟨""⟩
    ∧ Index.init (some "bad name") ≠ Except.ok ⟨"bad name"⟩
    ∧ Index.init (some "!bad") ≠ Except.ok ⟨"!bad"⟩
    ∧ Index.init none ≠ Except.ok ⟨"x"⟩ := by
  refine ⟨?_, ?_, ?_, ?_, ?_⟩
  · exact (index_init_name_validation "good-index").1 (by decide)
  · exact (index_init_name_validation "").2.1 (Or.inl rfl) ⟨""⟩
  · exact (index_init_name_validation "bad name").2.1 (Or.inr (Or.inr (by decide)))
      ⟨"bad name"⟩
  · exact (index_init_name_validation "!bad").2.1 (Or.inr (Or.inl (by decide))) ⟨"!bad"⟩
  · exact (index_init_name_validation "x").2.2 ⟨"x"⟩

/-- C5: assigning a schema-field attribute stores `to_search_value` of
the value (stored state is wire-format), a subsequent read returns
`to_python` of the stored value (observed state is app-format), so
set-then-get returns `to_python (to_search_value v)`; non-field
attributes pass through unmodified in both directions. -/
theorem document_attribute_conversion (schema : Schema) (attrs : Dict Value)
    (n : String) (v : Value) :
    (∀ f, Dict.get? schema n = some f →
      Dict.get? (DocumentModel.setattr schema attrs n v) n =
        some (f.to_search_value v)
      ∧ DocumentModel.getattribute schema (DocumentModel.setattr schema attrs n v) n =
        some (f.to_python (f.to_search_value v)))
    ∧ (Dict.get? schema n = none →
      Dict.get? (DocumentModel.setattr schema attrs n v) n = some v
      ∧ DocumentModel.getattribute schema (DocumentModel.setattr schema attrs n v) n =
        some v) := by
  constructor
  · intro f hf
    constructor
    · simp [DocumentModel.setattr, hf, Dict.get?_insert_self]
    · simp [DocumentModel.getattribute, DocumentModel.setattr, hf, Dict.get?_insert_self]
  · intro hf
    constructor
    · simp [DocumentModel.setattr, hf, Dict.get?_insert_self]
    · simp [DocumentModel.getattribute, DocumentModel.setattr, hf, Dict.get?_insert_self]

/-- Witness for C5: a boolean written to a Boolean field is stored as the
atom tag `"true"` yet reads back as the equal boolean. -/
theorem document_attribute_conversion_witness :
    Dict.get? (DocumentModel.setattr [("flag", BooleanField)] [] "flag"
        (Value.bool true)) "flag" = some (Value.str "true")
    ∧ DocumentModel.getattribute [("flag", BooleanField)]
        (DocumentModel.setattr [("flag", BooleanField)] [] "flag" (Value.bool true))
        "flag" = some (Value.bool true) := by
  have h := (document_attribute_conversion [("flag", BooleanField)] [] "flag"
    (Value.bool true)).1 BooleanField rfl
  exact ⟨h.1, h.2⟩

/-- C8: a range query with `ids_only=True` returns one id-only
`RangeDocument` projection per remote wire document, in order, each
carrying exactly the attribute `doc_id` of the corresponding wire
document and no field data. -/
theorem get_range_ids_only_projection (remote : GRKwargs → List WireDoc)
    (dc : Option Schema) (kwargs : GRKwargs) (h : kwargs.ids_only = true) :
    Index.get_range remote dc kwargs =
      Except.ok ((remote kwargs).map
        (fun w => RangeResult.range ⟨[("doc_id", w.doc_id)]⟩)) := by
  unfold Index.get_range
  rw [h]
  simp

/-- Witness for C8 at a concrete two-document remote. -/
theorem get_range_ids_only_projection_witness :
    Index.get_range twoDocRemote none { ids_only := true } =
      Except.ok [RangeResult.range ⟨[("doc_id", Value.str "a")]⟩,
        RangeResult.range ⟨[("doc_id", Value.str "b")]⟩] := by
  have h := get_range_ids_only_projection twoDocRemote none { ids_only := true } rfl
  exact h

/-- C9: `Index.put` wraps a single document into a one-element batch, and
for a batch builds one wire document per document — its id the document's
`doc_id` attribute, its fields exactly one per schema entry, each valued
`to_search_value` of the observed (app-level) attribute value — and
submits the whole batch in one remote call, returning its result. -/
theorem put_builds_wire_batch {ρ : Type v} (remotePut : List WireDoc → ρ)
    (d : PyDoc) (ds : List PyDoc) :
    Index.put remotePut (Index.PutArg.single d) =
      Index.put remotePut (Index.PutArg.batch [d])
    ∧ Index.put remotePut (Index.PutArg.batch ds) =
        remotePut (ds.map (fun dd =>
          ⟨DocumentModel.getattrD dd "doc_id",
            dd.schema.map (fun nf =>
              ⟨Index.FIELD_MAP nf.2.cls, nf.1,
                nf.2.to_search_value (DocumentModel.getattrD dd nf.1)⟩)⟩)) :=
  ⟨rfl, rfl⟩

/-- C10: the deprecated methods are exact aliases — `add` is `put`,
`remove` is `delete`, `list_documents` is `get_range` — for every
input. -/
theorem deprecated_aliases_eq {ρ σ : Type v} (remoteGR : GRKwargs → List WireDoc)
    (remotePut : List WireDoc → ρ) (remoteDelete : List Value → σ)
    (dc : Option Schema) (kwargs : GRKwargs) (documents : Index.PutArg)
    (doc_ids : List Value) :
    Index.list_documents remoteGR dc kwargs = Index.get_range remoteGR dc kwargs
    ∧ Index.add remotePut documents = Index.put remotePut documents
    ∧ Index.remove remoteDelete doc_ids = Index.delete remoteDelete doc_ids :=
  ⟨rfl, rfl, rfl⟩

/-- On an empty page the purge loop exits at once, for any fuel. -/
theorem purgeLoop_nil {σ : Type u} (R : Remote σ) (fuel : Nat) (s : σ) :
    purgeLoop R fuel s [] = ([], true) := by
  cases fuel with
  | zero => rfl
  | succ n => rfl

/-- Every delete the purge loop issues carries a non-empty id list. -/
theorem purgeLoop_delete_nonempty {σ : Type u} (R : Remote σ) :
    ∀ (fuel : Nat) (s : σ) (docs : List RangeDocument) (ids : List Value),
      PurgeEvent.deleteIds ids ∈ (purgeLoop R fuel s docs).1 → ids ≠ [] := by
  intro fuel
  induction fuel with
  | zero =>
    intro s docs ids h
    simp [purgeLoop] at h
  | succ n ih =>
    intro s docs ids h
    cases docs with
    | nil => simp [purgeLoop] at h
    | cons d ds =>
      simp only [purgeLoop] at h
      rcases List.mem_cons.mp h with h | h
      · injection h with h2
        rw [h2]
        simp
      · rcases List.mem_cons.mp h with h | h
        · exact PurgeEvent.noConfusion h
        · exact ih _ _ ids h

/-- Started on a non-empty page, the purge loop reaches its exit exactly
when its trace ends with a fetch that returned an empty page. -/
theorem purgeLoop_done_iff {σ : Type u} (R : Remote σ) :
    ∀ (fuel : Nat) (s : σ) (d : RangeDocument) (ds : List RangeDocument),
      (purgeLoop R fuel s (d :: ds)).2 = true ↔
        ∃ kw, (purgeLoop R fuel s (d :: ds)).1.getLast? =
          some (PurgeEvent.fetch kw []) := by
  intro fuel
  induction fuel with
  | zero =>
    intro s d ds
    constructor
    · intro h
      simp [purgeLoop] at h
    · intro h
      rcases h with ⟨kw, hk⟩
      simp [purgeLoop] at hk
  | succ n ih =>
    intro s d ds
    simp only [purgeLoop]
    rcases hnext : purgeFetch R (R.delete s ((d :: ds).map RangeDocument.doc_id))
        { ids_only := true,
          start_id := some (CursorVal.rangeDoc ((d :: ds).getLast (List.cons_ne_nil d ds))),
          include_start_object := some false } with _ | ⟨d', ds'⟩
    · rw [purgeLoop_nil]
      constructor
      · intro _
        refine ⟨⟨true, some (CursorVal.rangeDoc ((d :: ds).getLast (List.cons_ne_nil d ds))),
          some false⟩, ?_⟩
        simp
      · intro _
        rfl
    · have hiff := ih (R.delete s ((d :: ds).map RangeDocument.doc_id)) d' ds'
      rcases hp : (purgeLoop R n (R.delete s ((d :: ds).map RangeDocument.doc_id))
          (d' :: ds')).1 with _ | ⟨e, es⟩
      · rw [hp] at hiff
        constructor
        · intro h
          rcases hiff.mp h with ⟨kw, hk⟩
          simp at hk
        · intro h
          rcases h with ⟨kw, hk⟩
          rw [List.getLast?_cons_cons, List.getLast?_singleton] at hk
          injection hk with hk2
          injection hk2 with hk3 hk4
          exact List.noConfusion hk4
      · rw [hp] at hiff
        rw [List.getLast?_cons_cons, List.getLast?_cons_cons]
        exact hiff

/-- C2 (code bug): evaluated on an index holding the single document id
`"a"`, the re-query after the first delete passes as `start_id` the
`RangeDocument` object itself (`start_id=docs[-1]`), not the document id
string `docs[-1].doc_id` that the claim (and spec §9) describe. -/
theorem purge_cursor_passes_range_document :
    (Index.purge oneDocRemote [⟨Value.str "a", []⟩] 2).1.getLast? =
      some (PurgeEvent.fetch
        { ids_only := true,
          start_id := some (CursorVal.rangeDoc ⟨[("doc_id", Value.str "a")]⟩),
          include_start_object := some false } [])
    ∧ ∀ v, (some (CursorVal.rangeDoc ⟨[("doc_id", Value.str "a")]⟩) : Option CursorVal)
        ≠ some (CursorVal.value v) := by
  constructor
  · decide
  · intro v h
    exact CursorVal.noConfusion (Option.some.inj h)

/-- C7: `Index.purge` follows the FETCHING/DELETING state machine —
every delete it issues is on a non-empty page (never an empty id list),
and it reaches DONE exactly when a fetch returns zero documents (the
trace then ends with that empty fetch). -/
theorem purge_state_machine {σ : Type u} (R : Remote σ) (s0 : σ) (fuel : Nat) :
    (∀ ids, PurgeEvent.deleteIds ids ∈ (Index.purge R s0 fuel).1 → ids ≠ [])
    ∧ ((Index.purge R s0 fuel).2 = true ↔
        ∃ kw, (Index.purge R s0 fuel).1.getLast? = some (PurgeEvent.fetch kw [])) := by
  constructor
  · intro ids h
    simp only [Index.purge] at h
    rcases List.mem_cons.mp h with h | h
    · exact PurgeEvent.noConfusion h
    · exact purgeLoop_delete_nonempty R fuel s0 _ ids h
  · simp only [Index.purge]
    rcases hd : purgeFetch R s0 { ids_only := true } with _ | ⟨d, ds⟩
    · rw [purgeLoop_nil]
      constructor
      · intro _
        refine ⟨{ ids_only := true }, ?_⟩
        rw [List.getLast?_singleton]
      · intro _
        rfl
    · have hiff := purgeLoop_done_iff R fuel s0 d ds
      rcases hp : (purgeLoop R fuel s0 (d :: ds)).1 with _ | ⟨e, es⟩
      · rw [hp] at hiff
        constructor
        · intro h
          rcases hiff.mp h with ⟨kw, hk⟩
          simp at hk
        · intro h
          rcases h with ⟨kw, hk⟩
          rw [List.getLast?_singleton] at hk
          injection hk with hk2
          injection hk2 with hk3 hk4
          exact List.noConfusion hk4
      · rw [hp] at hiff
        rw [List.getLast?_cons_cons]
        exact hiff

/-- Witness for C7 on a concrete one-document index: the deleted id list
is non-empty and the run reaches DONE. -/
theorem purge_state_machine_witness :
    [Value.str "a"] ≠ [] ∧ (Index.purge oneDocRemote [⟨Value.str "a", []⟩] 2).2 = true := by
  have h := purge_state_machine oneDocRemote [⟨Value.str "a", []⟩] 2
  exact ⟨h.1 [Value.str "a"] (by decide), h.2.mpr
    ⟨{ ids_only := true,
       start_id := some (CursorVal.rangeDoc ⟨[("doc_id", Value.str "a")]⟩),
       include_start_object := some false }, by decide⟩⟩

/-- C4: a subclass schema built by the metaclass contains every field
name of its base's schema; a name declared both in the base and in the
subclass body resolves to the subclass's own `Field`; and with two bases
a name not redeclared in the body resolves left-to-right (the first
base's definition wins over the second's). -/
theorem schema_inheritance (sA dctB s1 s2 dct : Schema)
    (n0 : String)
    (hndB : (Dict.keys dctB).Nodup)
    (hnd1 : (Dict.keys s1).Nodup)
    (hnd2 : (Dict.keys s2).Nodup)
    (hn0 : n0 ∉ Dict.keys dct) :
    (∀ n, (Dict.get? sA n).isSome = true →
      (Dict.get? (MetaClass.new [sA] dctB) n).isSome = true)
    ∧ (∀ n f, (n, f) ∈ dctB → Dict.get? (MetaClass.new [sA] dctB) n = some f)
    ∧ Dict.get? (MetaClass.new [s1, s2] dct) n0 =
        (Dict.get? s1 n0).orElse (fun _ => Dict.get? s2 n0) := by
  refine ⟨?_, ?_, ?_⟩
  · intro n h
    have hmem : n ∈ Dict.keys sA := by
      by_contra hc
      rw [(Dict.get?_eq_none_iff sA n).mpr hc] at h
      simp at h
    show (Dict.get? (Dict.update (Dict.update [] sA) dctB) n).isSome = true
    exact Dict.get?_update_isSome (Dict.update [] sA) dctB n
      (Dict.get?_update_isSome_of_mem [] sA n hmem)
  · intro n f hm
    show Dict.get? (Dict.update (Dict.update [] sA) dctB) n = some f
    exact Dict.get?_update_mem (Dict.update [] sA) dctB n f hndB hm
  · show Dict.get? (Dict.update (Dict.update (Dict.update [] s2) s1) dct) n0 = _
    rw [Dict.get?_update_not_mem _ _ _ hn0, Dict.get?_update_eq _ _ _ hnd1,
      Dict.get?_update_eq _ _ _ hnd2]
    cases Dict.get? s1 n0 <;> cases Dict.get? s2 n0 <;> rfl

/-- Witness for C4 on concrete schemas: base fields survive, an
overridden name takes the subclass's definition, and with two bases the
left base wins. -/
theorem schema_inheritance_witness :
    (Dict.get? (MetaClass.new [[("x", TextFieldModel), ("y", TextFieldModel)]]
      [("y", BooleanField), ("z", BooleanField)]) "x").isSome = true
    ∧ Dict.get? (MetaClass.new [[("x", TextFieldModel), ("y", TextFieldModel)]]
        [("y", BooleanField), ("z", BooleanField)]) "y" = some BooleanField
    ∧ Dict.get? (MetaClass.new [[("x", TextFieldModel)],
        [("x", BooleanField), ("q", BooleanField)]] [("o", TextFieldModel)]) "x" =
      (Dict.get? [("x", TextFieldModel)] "x").orElse
        (fun _ => Dict.get? [("x", BooleanField), ("q", BooleanField)] "x") := by
  have h := schema_inheritance [("x", TextFieldModel), ("y", TextFieldModel)]
    [("y", BooleanField), ("z", BooleanField)] [("x", TextFieldModel)]
    [("x", BooleanField), ("q", BooleanField)] [("o", TextFieldModel)] "x"
    (by decide) (by decide) (by decide) (by decide)
  exact ⟨h.1 "x" rfl, h.2.1 "y" BooleanField (List.mem_cons_self _ _), h.2.2⟩

/-- Helper for C6: names not in the processed field list keep their
stored value through the init loop. -/
theorem initFields_attrs_not_mem (schema : Schema) (l : List (String × Field))
    (attrs kw : Dict Value) (n : String) (h : n ∉ l.map Prod.fst) :
    Dict.get? (DocumentModel.initFields schema l attrs kw).1 n = Dict.get? attrs n := by
  induction l generalizing attrs kw with
  | nil => rfl
  | cons nf rest ih =>
    rw [List.map_cons, List.mem_cons] at h
    push_neg at h
    show Dict.get? (DocumentModel.initFields schema rest _ _).1 n = _
    rw [ih _ _ h.2]
    rcases hs : Dict.get? schema nf.1 with _ | f <;>
      simp [DocumentModel.setattr, hs, Dict.get?_insert_ne _ _ _ _ h.1]

/-- Helper for C6: names not in the processed field list are not popped
from the keyword dict by the init loop. -/
theorem initFields_kw_not_mem (schema : Schema) (l : List (String × Field))
    (attrs kw : Dict Value) (n : String) (h : n ∉ l.map Prod.fst) :
    Dict.get? (DocumentModel.initFields schema l attrs kw).2 n = Dict.get? kw n := by
  induction l generalizing attrs kw with
  | nil => rfl
  | cons nf rest ih =>
    rw [List.map_cons, List.mem_cons] at h
    push_neg at h
    show Dict.get? (DocumentModel.initFields schema rest _ _).2 n = _
    rw [ih _ _ h.2, Dict.get?_erase_ne _ _ _ h.1]

/-- Helper for C6: a processed field ends up stored as `to_search_value`
of its keyword value (default `None`). -/
theorem initFields_attrs_mem (schema : Schema) (l : List (String × Field))
    (attrs kw : Dict Value) (n : String) (f : Field)
    (hnd : (l.map Prod.fst).Nodup) (hm : (n, f) ∈ l)
    (hs : Dict.get? schema n = some f) :
    Dict.get? (DocumentModel.initFields schema l attrs kw).1 n =
      some (f.to_search_value ((Dict.get? kw n).getD Value.null)) := by
  induction l generalizing attrs kw with
  | nil => simp at hm
  | cons nf rest ih =>
    obtain ⟨a, b⟩ := nf
    rw [List.map_cons, List.nodup_cons] at hnd
    rcases List.mem_cons.mp hm with h | h
    · injection h with hk hv
      subst hk
      subst hv
      show Dict.get? (DocumentModel.initFields schema rest _ _).1 n = _
      rw [initFields_attrs_not_mem schema rest _ _ n hnd.1]
      simp [DocumentModel.setattr, hs, Dict.get?_insert_self]
    · have hne : n ≠ a := by
        intro hna
        apply hnd.1
        have hmm : n ∈ List.map Prod.fst rest := List.mem_map_of_mem Prod.fst h
        rwa [hna] at hmm
      show Dict.get? (DocumentModel.initFields schema rest _ (Dict.erase kw a)).1 n = _
      rw [ih _ _ hnd.2 h, Dict.get?_erase_ne _ _ _ hne]

/-- C6: `DocumentModel` construction assigns every schema field from its
keyword through the field's `to_search_value` (a missing keyword defaults
to `None` through the same conversion), and `doc_id` is the encoded
keyword string, with a missing or empty `doc_id` normalising to `None`. -/
theorem document_init_defaults_and_doc_id (schema : Schema) (kwargs : Dict Value)
    (hnd : (Dict.keys schema).Nodup) (hdoc : "doc_id" ∉ Dict.keys schema) :
    (∀ n f, (n, f) ∈ schema →
      Dict.get? (DocumentModel.init schema kwargs).attrs n =
        some (f.to_search_value ((Dict.get? kwargs n).getD Value.null)))
    ∧ (∀ v, Dict.get? kwargs "doc_id" = some v →
      DocumentModel.getattribute schema (DocumentModel.init schema kwargs).attrs
        "doc_id" =
        some (if pyUnicode v = "" then Value.null else Value.str (pyUnicode v)))
    ∧ (Dict.get? kwargs "doc_id" = none →
      DocumentModel.getattribute schema (DocumentModel.init schema kwargs).attrs
        "doc_id" = some Value.null) := by
  have hdocnone : Dict.get? schema "doc_id" = none :=
    (Dict.get?_eq_none_iff schema "doc_id").mpr hdoc
  refine ⟨?_, ?_, ?_⟩
  · intro n f hm
    have hs := Dict.get?_of_mem_nodup schema n f hnd hm
    have hne : n ≠ "doc_id" := by
      intro h
      exact hdoc (h ▸ List.mem_map_of_mem Prod.fst hm)
    simp only [DocumentModel.init, DocumentModel.setattr, hdocnone]
    rw [Dict.get?_insert_ne _ _ _ _ hne]
    exact initFields_attrs_mem schema schema [] kwargs n f hnd hm hs
  · intro v hv
    have hkw : Dict.get? (DocumentModel.initFields schema schema [] kwargs).2
        "doc_id" = some v := by
      rw [initFields_kw_not_mem schema schema [] kwargs "doc_id" hdoc]
      exact hv
    simp only [DocumentModel.init, DocumentModel.setattr, DocumentModel.getattribute,
      hdocnone, hkw, Option.getD_some, Dict.get?_insert_self]
  · intro hv
    have hkw : Dict.get? (DocumentModel.initFields schema schema [] kwargs).2
        "doc_id" = none := by
      rw [initFields_kw_not_mem schema schema [] kwargs "doc_id" hdoc]
      exact hv
    simp only [DocumentModel.init, DocumentModel.setattr, DocumentModel.getattribute,
      hdocnone, hkw, Option.getD_none, Dict.get?_insert_self]
    simp [pyUnicode]

/-- Witness for C6 on a concrete Boolean-field document: the supplied
field keyword is stored in wire form, a supplied `doc_id` reads back as
its string, and with no keywords at all the `doc_id` is `None`. -/
theorem document_init_defaults_and_doc_id_witness :
    Dict.get? (DocumentModel.init [("flag", BooleanField)]
        [("flag", Value.bool true), ("doc_id", Value.str "d1")]).attrs "flag" =
      some (Value.str "true")
    ∧ DocumentModel.getattribute [("flag", BooleanField)]
        (DocumentModel.init [("flag", BooleanField)]
          [("flag", Value.bool true), ("doc_id", Value.str "d1")]).attrs "doc_id" =
      some (Value.str "d1")
    ∧ DocumentModel.getattribute [("flag", BooleanField)]
        (DocumentModel.init [("flag", BooleanField)] []).attrs "doc_id" =
      some Value.null := by
  have h1 := document_init_defaults_and_doc_id [("flag", BooleanField)]
    [("flag", Value.bool true), ("doc_id", Value.str "d1")] (by decide) (by decide)
  have h2 := document_init_defaults_and_doc_id [("flag", BooleanField)] []
    (by decide) (by decide)
  refine ⟨?_, ?_, ?_⟩
  · exact h1.1 "flag" BooleanField (List.mem_cons_self _ _)
  · exact h1.2.1 (Value.str "d1") rfl
  · exact h2.2.2 rfl

end Search
